import Mathlib

/-!
Verification of the finit configuration parser (src/conf.c) against its
natural-language specification.

The C code is shallowly embedded: C strings become `List Char` (reads past
the terminator yield the NUL character, matching a zero-padded buffer),
machine integers become `Nat`/`Int`, the mutable globals of conf.c become an
explicit `Sys` state record, and calls to external collaborators (service
registry, tty registry, command runner, syslog, the OS limit API and the
filesystem) become either explicit state or events in an effect trace.
-/

namespace Finit

/-! ## String primitives -/

/-- Byte content of a string literal, as the chars of a C string (no NUL). -/
def cs (s : String) : List Char := s.data

/-- ASCII lowercase, as `strncasecmp` compares characters. -/
def tolower (c : Char) : Char :=
  if 'A' ≤ c ∧ c ≤ 'Z' then Char.ofNat (c.toNat + 32) else c

/-- `MATCH_CMD(l, c, x)` from conf.c:38: case-insensitive match of the fixed
keyword `c` at the head of `l`; on success `x` is the remainder of the line. -/
def matchCmd (l c : List Char) : Option (List Char) :=
  if (l.take c.length).map tolower = c.map tolower then some (l.drop c.length) else none

/-- Modelled from the spec: libite's `strip_line` (the library is not in the
source slice) trims the surrounding whitespace from a directive remainder. -/
def strip_line (s : List Char) : List Char :=
  ((s.dropWhile fun c => c == ' ' || c == '\t').reverse.dropWhile
    fun c => c == ' ' || c == '\t').reverse

/-- `strlcpy(dst, src, n)` into an empty buffer of size `n`: the copy keeps
at most `n - 1` characters. -/
def strlcpyTrunc (n : Nat) (src : List Char) : List Char := src.take (n - 1)

/-- `strcpy(dst, pre)` followed by `strlcat(dst, src, n)`: the result holds
at most `n - 1` characters. -/
def strlcatTrunc (n : Nat) (pre src : List Char) : List Char := (pre ++ src).take (n - 1)

/-- `tabstospaces` (conf.c:364-373): every tab becomes one space. -/
def tabstospaces (line : List Char) : List Char :=
  line.map fun c => if c = '\t' then ' ' else c

/-- `isspace`, as `strtoll` skips leading whitespace. -/
def isSpaceCh (c : Char) : Bool :=
  c == ' ' || c == '\t' || c == '\n' || c == '\r' || c == Char.ofNat 11 || c == Char.ofNat 12

/-- Decimal value of a digit string. -/
def digitsToNat (l : List Char) : Nat := l.foldl (fun a c => a * 10 + (c.toNat - 48)) 0

/-- The integer syntax accepted by `strtonum` via `strtoll` base 10:
optional leading whitespace, one optional sign, digits, end of string. -/
def parseIntStr (s : List Char) : Option Int :=
  match s.dropWhile isSpaceCh with
  | [] => none
  | '-' :: ds => if ds ≠ [] ∧ ds.all Char.isDigit then some (-(digitsToNat ds : Int)) else none
  | '+' :: ds => if ds ≠ [] ∧ ds.all Char.isDigit then some ((digitsToNat ds : Int)) else none
  | ds => if ds.all Char.isDigit then some ((digitsToNat ds : Int)) else none

/-- OpenBSD `strtonum(numstr, minval, maxval, &errstr)`: `none` models a
non-null `errstr` (invalid number, or out of the inclusive range). -/
def strtonum (s : List Char) (lo hi : Int) : Option Int :=
  match parseIntStr s with
  | none => none
  | some v => if v < lo ∨ hi < v then none else some v

/-- The token sequence produced by repeated `strtok(_, " \t")` on a line:
maximal runs of non-separator characters, in order. -/
def strtokSplit (s : List Char) : List (List Char) :=
  (s.splitOnP (fun c => c == ' ' || c == '\t')).filter (fun t => ¬t.isEmpty)

/-! ## Runlevel bitmask compiler (conf.c:66-100) -/

/-- `SETBIT(x, b)`: set bit `b`. -/
def SETBIT (m : Nat) (b : Nat) : Nat := m ||| (1 <<< b)

/-- `CLRBIT(x, b)`: clear bit `b` (32-bit complement as in C's `~`). -/
def CLRBIT (m : Nat) (b : Nat) : Nat := m &&& (4294967295 ^^^ (1 <<< b))

/-- The digit value used by `conf_parse_runlevels` (conf.c:86-89): `s`/`S` is
aliased to `'0'`, then the character is interpreted relative to `'0'`. -/
def runlevelDigit (c : Char) : Int :=
  ((if c = 's' ∨ c = 'S' then '0' else c).toNat : Int) - 48

/-- The scanning loop of `conf_parse_runlevels` (conf.c:74-97).  The input
list holds the characters of the string from index 1 on; the empty list is
the NUL terminator (reads past the end of the buffer yield NUL). -/
def runlevelScan : List Char → Bool → Nat → Nat
  | [], _, m => m
  | c :: rest, neg, m =>
    if c = ']' ∨ c = Char.ofNat 0 then m
    else if c = '!' then runlevelScan rest true 1022
    else if 9 < runlevelDigit c ∨ runlevelDigit c < 0 then runlevelScan rest neg m
    else if neg then runlevelScan rest neg (CLRBIT m (runlevelDigit c).toNat)
    else runlevelScan rest neg (SETBIT m (runlevelDigit c).toNat)

/-- `conf_parse_runlevels` (conf.c:67-100): a null pointer defaults to
`"[234]"`; scanning starts at index 1 (the character after `[`). -/
def conf_parse_runlevels (runlevels : Option (List Char)) : Nat :=
  runlevelScan ((runlevels.getD (cs "[234]")).drop 1) false 0

/-! ## Effects and service descriptors -/

/-- Service types forwarded to `service_register` (service.h collaborators). -/
inductive SvcType
  | service
  | task
  | run
  | inetd
  deriving DecidableEq, Repr

/-- Observable actions of the parser on its external collaborators: the
service and tty registries (mark / register / sweep), the command runner,
the syslog stream (split into error and warning severities as conf.c uses
them), the hostname applier, and file-parsing calls. -/
inductive Effect
  | svcMark
  | ttyMark
  | sweep
  | setHostnameApply
  | register (ty : SvcType) (rest : List Char) (mtime : Option Nat)
  | registerTty (rest : List Char) (mtime : Option Nat)
  | runCmd (cmd : List Char)
  | logErr
  | logWarn
  | parseFile (path : List Char)
  | parseConf (path : List Char)
  deriving DecidableEq, Repr

/-- The fields of `svc_t` that conf.c touches.  `isDaemon` models the
external predicate `svc_is_daemon` (svc.h is not part of the source slice). -/
structure Svc where
  cmd : List Char
  sighup : Bool
  cond : List Char
  isDaemon : Bool

/-- Modelled from the spec: the fixed capacity `sizeof(svc->cond)` of the
service descriptor's condition field; svc.h is not in the source slice, the
spec only requires the capacity to be fixed and bounded. -/
def COND_SIZE : Nat := 32

/-- `conf_parse_cond` (conf.c:102-136).  Returns the updated service (or
`none` for a null pointer) together with the log effects. -/
def conf_parse_cond (svc : Option Svc) (cond : Option (List Char)) : Option Svc × List Effect :=
  match svc with
  | none => (none, [Effect.logErr])
  | some svc0 =>
    let svc1 := if svc0.isDaemon then { svc0 with sighup := true } else svc0
    match cond with
    | none => (some svc1, [])
    | some c =>
      let step := if c.head? = some '!' then ({ svc1 with sighup := false }, c.drop 1)
                  else (svc1, c)
      let text := step.2.takeWhile (fun ch => ¬(ch = '>' ∨ ch = Char.ofNat 0))
      if COND_SIZE ≤ text.length then (some step.1, [Effect.logWarn])
      else (some { step.1 with cond := text }, [])

/-- The condition text derived from a raw expression: the leading `!` is
consumed, the rest is truncated at the first `>` (or NUL). -/
def condText (c : List Char) : List Char :=
  (if c.head? = some '!' then c.drop 1 else c).takeWhile (fun ch => ¬(ch = '>' ∨ ch = Char.ofNat 0))

/-! ## Resource limits (conf.c:138-222) -/

/-- The resource identifiers of the fixed `rlimit_names` table
(conf.c:143-164), including the conditionally present `RLIMIT_RTTIME`. -/
inductive Resource
  | as | core | cpu | data | fsize | locks | memlock | msgqueue
  | nice | nofile | nproc | rss | rtprio | rttime | sigpending | stack
  deriving DecidableEq, Repr

/-- `rlimit_names` (conf.c:143-164), in table order. -/
def rlimit_names : List (List Char × Resource) :=
  [(cs "as", Resource.as), (cs "core", Resource.core), (cs "cpu", Resource.cpu),
   (cs "data", Resource.data), (cs "fsize", Resource.fsize), (cs "locks", Resource.locks),
   (cs "memlock", Resource.memlock), (cs "msgqueue", Resource.msgqueue),
   (cs "nice", Resource.nice), (cs "nofile", Resource.nofile), (cs "nproc", Resource.nproc),
   (cs "rss", Resource.rss), (cs "rtprio", Resource.rtprio), (cs "rttime", Resource.rttime),
   (cs "sigpending", Resource.sigpending), (cs "stack", Resource.stack)]

/-- The lookup loop of conf.c:186-189: the whole table is scanned and the
last matching row wins (the names are distinct, so it is the only match). -/
def rlimitLookup (tok : List Char) : Option Resource :=
  rlimit_names.foldl (fun acc nv => if tok = nv.1 then some nv.2 else acc) none

/-- `RLIM_INFINITY` of a 64-bit `rlim_t`. -/
def RLIM_INFINITY : Nat := 18446744073709551615

/-- The value parse of conf.c:198-206: the literal `infinity`, or a number
accepted by `strtonum(tok, 0, (long long)2 << 31, ...)` — bounds 0 and
2^32 inclusive. -/
def rlimitValue (tok : List Char) : Option Nat :=
  if tok = cs "infinity" then some RLIM_INFINITY
  else
    match strtonum tok 0 4294967296 with
    | none => none
    | some v => some v.toNat

/-- `conf_parse_rlimit` (conf.c:166-222) over the kernel limit state, an
assignment of a (soft, hard) pair to every resource (`getrlimit` /
`setrlimit` are modelled as reading and writing that state).  Every `goto
fail`/`goto error` path emits one warning and leaves the state untouched. -/
def conf_parse_rlimit (line : List Char) (st : Resource → Nat × Nat) :
    (Resource → Nat × Nat) × List Effect :=
  match strtokSplit line with
  | [] => (st, [Effect.logWarn])
  | t1 :: ts =>
    if t1 = cs "soft" ∨ t1 = cs "hard" then
      match ts with
      | [] => (st, [Effect.logWarn])
      | t2 :: ts2 =>
        match rlimitLookup t2 with
        | none => (st, [Effect.logWarn])
        | some res =>
          match ts2 with
          | [] => (st, [Effect.logWarn])
          | t3 :: _ =>
            match rlimitValue t3 with
            | none => (st, [Effect.logWarn])
            | some v =>
              let pair := st res
              let pair2 := if t1 = cs "soft" then (v, pair.2) else (pair.1, v)
              (fun r => if r = res then pair2 else st r, [])
    else (st, [Effect.logWarn])

/-! ## Filesystem and global state -/

/-- What a directory entry resolves to: a regular file, a directory, or
another file type (FIFO, socket, device node). -/
inductive BaseKind
  | regular
  | directory
  | other
  deriving DecidableEq, Repr

/-- What `lstat`/`realpath` report for a drop-in directory entry: the entry
itself (`base`), a symbolic link whose target either exists (`some` base
kind) or dangles (`none`), or an entry `lstat` cannot access at all. -/
inductive FKind
  | base (k : BaseKind)
  | symlink (target : Option BaseKind)
  | inaccessible
  deriving DecidableEq, Repr

/-- One entry of the drop-in directory, with its modification time. -/
structure DirEntry where
  name : List Char
  kind : FKind
  mtime : Nat
  deriving DecidableEq, Repr

/-- The filesystem as conf.c observes it: `fexist` is libite's existence
check (access(2)); `contents` models fopen/fgets — `none` when the file
cannot be opened, otherwise the chomped lines; `listing` models scandir of
the drop-in directory — `none` when the scan fails. -/
structure FS where
  fexist : List Char → Bool
  contents : List Char → Option (List (List Char))
  listing : Option (List DirEntry)

/-- Modelled from the spec: the command/path buffer size `CMD_SIZE` of
finit.h (not in the source slice); only its finiteness matters. -/
def CMD_SIZE : Nat := 256

/-- Modelled from the spec: the fixed default hostname `DEFHOST` of finit.h
(not in the source slice). -/
def DEFHOST : List Char := cs "noname"

/-- Modelled from the spec: the primary configuration file `FINIT_CONF` of
finit.h (not in the source slice). -/
def FINIT_CONF : List Char := cs "/etc/finit.conf"

/-- Modelled from the spec: the drop-in directory `rcsd` of finit.h (not in
the source slice). -/
def rcsd : List Char := cs "/etc/finit.d"

/-- Modelled from the spec: the fixed default target runlevel `RUNLEVEL` of
finit.h (not in the source slice); the spec calls it "a fixed default
target runlevel", and finit's fallback at conf.c:287 is 2. -/
def RUNLEVEL : Int := 2

/-- The mutable globals of finit that conf.c reads or writes: the
GlobalSettings strings, the configured default runlevel `cfglevel`, the
current runlevel (read by the `module` directive), and the kernel resource
limit state behind getrlimit/setrlimit. -/
structure Sys where
  hostname : List Char
  network : Option (List Char)
  runparts : Option (List Char)
  sdown : Option (List Char)
  console : Option (List Char)
  cfglevel : Int
  runlevel : Nat
  rlimits : Resource → Nat × Nat

/-- Initial global state at bootstrap. -/
def sysInit : Sys :=
  { hostname := DEFHOST, network := none, runparts := none, sdown := none,
    console := none, cfglevel := 2, runlevel := 0, rlimits := fun _ => (0, 0) }

/-! ## Static and dynamic directive interpreters (conf.c:224-362) -/

/-- `parse_static` (conf.c:224-290).  The `include` branch emits a
`parseConf` request that the driver `parse_conf` interprets recursively. -/
def parse_static (fs : FS) (sys : Sys) (line : List Char) : Sys × List Effect :=
  match matchCmd line (cs "host ") with
  | some x => ({ sys with hostname := strip_line x }, [])
  | none =>
  match matchCmd line (cs "mknod ") with
  | some x => (sys, [Effect.runCmd (strlcatTrunc CMD_SIZE (cs "mknod ") (strip_line x))])
  | none =>
  match matchCmd line (cs "network ") with
  | some x => ({ sys with network := some (strip_line x) }, [])
  | none =>
  match matchCmd line (cs "runparts ") with
  | some x => ({ sys with runparts := some (strip_line x) }, [])
  | none =>
  match matchCmd line (cs "include ") with
  | some x =>
    if fs.fexist (strlcpyTrunc CMD_SIZE (strip_line x)) then
      (sys, [Effect.parseConf (strlcpyTrunc CMD_SIZE (strip_line x))])
    else (sys, [Effect.logErr])
  | none =>
  match matchCmd line (cs "shutdown ") with
  | some x => ({ sys with sdown := some (strip_line x) }, [])
  | none =>
  match matchCmd line (cs "runlevel ") with
  | some x =>
    let lvl := match strtonum (strip_line x) 1 9 with
               | none => RUNLEVEL
               | some v => v
    ({ sys with cfglevel := if lvl < 1 ∨ 9 < lvl ∨ lvl = 6 then 2 else lvl }, [])
  | none => (sys, [])

/-- `parse_dynamic` (conf.c:292-362).  `inetdEnabled` is the build-time
`INETD_ENABLED` flag; `mtime` is the file modification time handed to the
registries (null during the full boot parse). -/
def parse_dynamic (inetdEnabled : Bool) (sys : Sys) (line : List Char) (mtime : Option Nat) :
    Sys × List Effect :=
  match matchCmd line (cs "#") with
  | some _ => (sys, [])
  | none =>
  match matchCmd line (cs "module ") with
  | some x =>
    if sys.runlevel ≠ 0 then (sys, [])
    else (sys, [Effect.runCmd (strlcatTrunc CMD_SIZE (cs "modprobe ") (strip_line x))])
  | none =>
  match matchCmd line (cs "service ") with
  | some x => (sys, [Effect.register SvcType.service x mtime])
  | none =>
  match matchCmd line (cs "task ") with
  | some x => (sys, [Effect.register SvcType.task x mtime])
  | none =>
  match matchCmd line (cs "run ") with
  | some x => (sys, [Effect.register SvcType.run x mtime])
  | none =>
  match matchCmd line (cs "inetd ") with
  | some x =>
    if inetdEnabled then (sys, [Effect.register SvcType.inetd x mtime])
    else (sys, [Effect.logErr])
  | none =>
  match matchCmd line (cs "rlimit ") with
  | some x =>
    let r := conf_parse_rlimit x sys.rlimits
    ({ sys with rlimits := r.1 }, r.2)
  | none =>
  match matchCmd line (cs "console ") with
  | some x => ({ sys with console := some (strip_line x) }, [])
  | none =>
  match matchCmd line (cs "tty ") with
  | some x => (sys, [Effect.registerTty (strip_line x) mtime])
  | none => (sys, [])

/-- The line loop of `parse_conf_dynamic` (conf.c:386-397): each line is
normalized and handed to the dynamic interpreter with the file's mtime. -/
def parseDynLines (inetdEnabled : Bool) (mt : Nat) : Sys → List (List Char) → Sys × List Effect
  | sys, [] => (sys, [])
  | sys, line :: rest =>
    let r1 := parse_dynamic inetdEnabled sys (tabstospaces line) (some mt)
    let r2 := parseDynLines inetdEnabled mt r1.1 rest
    (r2.1, r1.2 ++ r2.2)

/-- `parse_conf_dynamic` (conf.c:375-402): open failure logs an error and
returns 1; otherwise every line runs through the dynamic interpreter. -/
def parse_conf_dynamic (inetdEnabled : Bool) (fs : FS) (sys : Sys) (file : List Char) (mt : Nat) :
    Nat × Sys × List Effect :=
  match fs.contents file with
  | none => (1, sys, [Effect.logErr])
  | some lines =>
    let r := parseDynLines inetdEnabled mt sys lines
    (0, r.1, r.2)

/-! ## Incremental reconciliation (conf.c:454-528) -/

/-- `strcmp`-as-ordering on names, as `alphasort` compares `scandir`
entries: byte-wise lexicographic order. -/
def strLe : List Char → List Char → Bool
  | [], _ => true
  | _ :: _, [] => false
  | a :: xs, b :: ys =>
    if a.toNat < b.toNat then true
    else if b.toNat < a.toNat then false
    else strLe xs ys

/-- `scandir(dir, &e, NULL, alphasort)`: the directory entries sorted into
lexicographic name order. -/
def sortEntries (es : List DirEntry) : List DirEntry :=
  List.insertionSort (fun a b => strLe a.name b.name = true) es

/-- The `snprintf(path, sizeof(path), "%s/%s", dir, name)` of conf.c:478. -/
def entryPath (e : DirEntry) : List Char := ((rcsd ++ (cs "/")) ++ e.name).take (CMD_SIZE - 1)

/-- The suffix test of conf.c:510-514: the path is at least 6 characters
long and its last 5 characters are `.conf`. -/
def confSuffixOK (p : List Char) : Bool :=
  decide (6 ≤ p.length) && (p.drop (p.length - 5) == cs ".conf")

/-- The accumulated skip chain of the reload loop (conf.c:481-514): an entry
is parsed unless lstat fails, the entry is a directory, the entry is a
dangling symlink, or the path lacks the `.conf` suffix. -/
def codeAccepts (e : DirEntry) : Bool :=
  !(e.kind == FKind.inaccessible) &&
  !(e.kind == FKind.base BaseKind.directory) &&
  !(e.kind == FKind.symlink none) &&
  confSuffixOK (entryPath e)

/-- The entry loop of `conf_reload_dynamic` (conf.c:471-519), with its four
`continue` guards; a surviving entry emits a `parseFile` marker followed by
the effects of parsing it. -/
def reloadLoop (inetdEnabled : Bool) (fs : FS) : Sys → List DirEntry → Sys × List Effect
  | sys, [] => (sys, [])
  | sys, e :: es =>
    if e.kind = FKind.inaccessible then reloadLoop inetdEnabled fs sys es
    else if e.kind = FKind.base BaseKind.directory then reloadLoop inetdEnabled fs sys es
    else if e.kind = FKind.symlink none then reloadLoop inetdEnabled fs sys es
    else if ¬(confSuffixOK (entryPath e) = true) then reloadLoop inetdEnabled fs sys es
    else
      let r := parse_conf_dynamic inetdEnabled fs sys (entryPath e) e.mtime
      let rest := reloadLoop inetdEnabled fs r.2.1 es
      (rest.1, (Effect.parseFile (entryPath e) :: r.2.2) ++ rest.2)

/-- `conf_reload_dynamic` (conf.c:455-528): mark both registries, scan the
drop-in directory (a failed scan is the soft-failure result 1), parse the
surviving entries in sorted order, apply the hostname.  The final `sweep`
event is modelled from the spec (§4.7 step 5): the unregistration of
entries still marked pending-removal is issued by finit's reload path right
after this function returns, outside the source slice, once the pass has
completed. -/
def conf_reload_dynamic (inetdEnabled : Bool) (fs : FS) (sys : Sys) : Nat × Sys × List Effect :=
  match fs.listing with
  | none => (1, sys, [Effect.svcMark, Effect.ttyMark] ++ [Effect.sweep])
  | some es =>
    let r := reloadLoop inetdEnabled fs sys (sortEntries es)
    (0, r.1, [Effect.svcMark, Effect.ttyMark] ++ r.2 ++ [Effect.setHostnameApply, Effect.sweep])

/-! ## Full boot parse (conf.c:404-452, 530-535) -/

/-- `parse_conf` (conf.c:404-452): open failure returns 1; otherwise each
normalized line runs through the static interpreter (whose `include`
requests recurse into the named file, conf.c:266), then the dynamic
interpreter with a null mtime.  The C recursion is unbounded (no cycle
detection); `fuel` bounds the call stack in the model, and exhaustion
returns the open-failure result. -/
def parse_conf (inetdEnabled : Bool) (fs : FS) : Nat → Sys → List Char → Nat × Sys × List Effect
  | 0, sys, _ => (1, sys, [])
  | fuel + 1, sys, file =>
    match fs.contents file with
    | none => (1, sys, [])
    | some lines =>
      let step := fun (acc : Sys × List Effect) (line : List Char) =>
        let nline := tabstospaces line
        let r1 := parse_static fs acc.1 nline
        let r2 := r1.2.foldl (fun (b : Sys × List Effect) e =>
          match e with
          | Effect.parseConf p =>
            let rr := parse_conf inetdEnabled fs fuel b.1 p
            (rr.2.1, b.2 ++ [e] ++ rr.2.2)
          | e => (b.1, b.2 ++ [e])) (r1.1, [])
        let r3 := parse_dynamic inetdEnabled r2.1 nline none
        (r3.1, acc.2 ++ r2.2 ++ r3.2)
      let res := lines.foldl step (sys, [])
      (0, res.1, res.2)

/-- `conf_parse_config` (conf.c:530-535): set the default hostname, parse
the primary file, and only if that succeeds (the short-circuit of `||`) run
the incremental reconciliation. -/
def conf_parse_config (inetdEnabled : Bool) (fs : FS) (fuel : Nat) : Nat × Sys × List Effect :=
  let sys := { sysInit with hostname := DEFHOST }
  let r := parse_conf inetdEnabled fs fuel sys FINIT_CONF
  if r.1 ≠ 0 then (1, r.2.1, r.2.2)
  else
    let r2 := conf_reload_dynamic inetdEnabled fs r.2.1
    (if r2.1 ≠ 0 then 1 else 0, r2.2.1, r.2.2 ++ r2.2.2)

/-! ## Observers and spec-side definitions -/

/-- The sequence of drop-in files a trace parses, in order. -/
def parsedFiles (evs : List Effect) : List (List Char) :=
  evs.filterMap fun e => match e with | Effect.parseFile p => some p | _ => none

/-- An effect that is neither a registry mark nor the sweep. -/
def isMidEffect : Effect → Bool
  | Effect.svcMark => false
  | Effect.ttyMark => false
  | Effect.sweep => false
  | _ => true

/-- The drop-in filter as the specification words it: regular files — or
symlinks resolving to regular files — whose name ends in `.conf`. -/
def specAccepts (e : DirEntry) : Bool :=
  (e.kind == FKind.base BaseKind.regular || e.kind == FKind.symlink (some BaseKind.regular)) &&
  (cs ".conf").isSuffixOf e.name

/-- An absolute path, as the specification requires of `include`. -/
def isAbsolutePath (p : List Char) : Bool := p.head? == some '/'

/-- The effects the dynamic interpreter can produce: registrations, command
runs and log lines — never registry marks, sweeps, hostname application or
file parses. -/
def isDynEffect : Effect → Bool
  | Effect.register _ _ _ => true
  | Effect.registerTty _ _ => true
  | Effect.runCmd _ => true
  | Effect.logErr => true
  | Effect.logWarn => true
  | _ => false

/-- A drop-in entry named `a.conf` that is neither a regular file nor a
symlink (e.g. a FIFO). -/
def fifoEntry : DirEntry := { name := cs "a.conf", kind := FKind.base BaseKind.other, mtime := 0 }

/-- A filesystem whose drop-in directory holds only `fifoEntry`. -/
def fsFifo : FS :=
  { fexist := fun _ => false, contents := fun _ => none, listing := some [fifoEntry] }

/-- A filesystem on which only the relative path `x.conf` exists. -/
def fsRel : FS :=
  { fexist := fun q => q == cs "x.conf", contents := fun _ => none, listing := none }

/-- A global state past bootstrap (current runlevel 2). -/
def sysBoot : Sys := { sysInit with runlevel := 2 }

/-! # Theorems -/

theorem setbit_lt_1024 {m b : Nat} (hm : m < 1024) (hb : b ≤ 9) :
    SETBIT m b < 1024 := by
  have h1 : (1 <<< b) < 2 ^ 10 := by
    rw [Nat.shiftLeft_eq, one_mul]
    exact lt_of_le_of_lt (Nat.pow_le_pow_right (by decide) hb) (by norm_num)
  have hm' : m < 2 ^ 10 := by simpa using hm
  have h2 : m ||| (1 <<< b) < 2 ^ 10 := Nat.or_lt_two_pow hm' h1
  simpa [SETBIT] using h2

theorem runlevelScan_lt (l : List Char) :
    ∀ neg m, m < 1024 → runlevelScan l neg m < 1024 := by
  induction l with
  | nil => intro neg m hm; simpa [runlevelScan] using hm
  | cons c rest ih =>
    intro neg m hm
    rw [runlevelScan]
    split
    · exact hm
    · split
      · exact ih true 1022 (by decide)
      · split
        · exact ih neg m hm
        · split
          · exact ih neg _ (lt_of_le_of_lt Nat.and_le_left hm)
          · next hdig _ =>
            refine ih neg _ (setbit_lt_1024 hm ?_)
            push_neg at hdig
            omega

/-- Claim C1, counterexample: on the empty string the compiler does not
return the default mask 28 (bits 2,3,4); the null-default at conf.c:71 fires
only for an absent (null) string, and the scan, which starts at index 1,
immediately reads a terminator on `""` and returns the empty mask 0. -/
theorem c1_counterexample :
    conf_parse_runlevels (some []) = 0 ∧ (0 : Nat) ≠ 28 := by decide

/-- Claim C1, amended: `"[234]"` yields mask 28 (bits 2,3,4); an absent
(null) input defaults to `"[234]"` and yields 28; the empty string `""`
yields the empty mask 0 (it is not the null default); `"[S]"` yields mask 1
(bit 0); `"[!016]"` yields 956 (bits 2,3,4,5,7,8,9 — the negation baseline
1022 is bits 1..9, bit 0 never in the baseline). -/
theorem c1_runlevel_masks :
    conf_parse_runlevels (some (cs "[234]")) = 28 ∧
    conf_parse_runlevels none = 28 ∧
    conf_parse_runlevels (some []) = 0 ∧
    conf_parse_runlevels (some (cs "[S]")) = 1 ∧
    conf_parse_runlevels (some (cs "[!016]")) = 956 := by decide

/-- Claim C9: `conf_parse_runlevels` is total — for every input string
(including a null pointer), the scan terminates (the Lean model is a
structurally recursive function over the buffer contents, mirroring that the
C loop stops at the NUL terminator or `]`) and returns a 10-bit runlevel
bitmask, i.e. a value below 1024. -/
theorem c9_runlevels_total (s : Option (List Char)) : conf_parse_runlevels s < 1024 := by
  cases s with
  | none => decide
  | some l => exact runlevelScan_lt _ _ _ (by decide)

/-- Claim C6: if the condition text (after `!` removal and truncation at the
first `>`) is at least as long as the capacity of the fixed-size condition
field, `conf_parse_cond` leaves the condition field unchanged and emits a
warning; text strictly shorter than the capacity is copied in full, with no
warning. -/
theorem c6_cond_overflow (s : Svc) (c : List Char) :
    (conf_parse_cond (some s) (some c)).1.map Svc.cond =
      some (if COND_SIZE ≤ (condText c).length then s.cond else condText c) ∧
    (conf_parse_cond (some s) (some c)).2 =
      (if COND_SIZE ≤ (condText c).length then [Effect.logWarn] else []) := by
  by_cases h1 : c.head? = some '!' <;>
    by_cases h2 : COND_SIZE ≤ (condText c).length <;>
      simp_all [conf_parse_cond, condText] <;>
        cases hd : s.isDaemon <;> simp_all <;> simp [Nat.not_le.mpr h2]

/-- Claim C5: a successfully applied directive `<sel> <name> <value>` —
whose line tokenizes into a selector that is one of the two literals `soft`
and `hard`, a name the resource table maps to `res`, and a value the value
parse accepts as `v` (a bounded number or the infinity sentinel) — applies
without a warning and overwrites exactly the half named by the selector of
exactly the resource named by the name token with exactly the parsed value;
the other half of that resource keeps the value that was read back, and
every other resource's (soft, hard) pair is untouched. -/
theorem c5_rlimit_frame (line : List Char) (st : Resource → Nat × Nat)
    (sel nm val : List Char) (ts : List (List Char)) (res : Resource) (v : Nat)
    (hsp : strtokSplit line = sel :: nm :: val :: ts)
    (hsel : sel = cs "soft" ∨ sel = cs "hard")
    (hlk : rlimitLookup nm = some res)
    (hv : rlimitValue val = some v) :
    (conf_parse_rlimit line st).2 = [] ∧
    (conf_parse_rlimit line st).1 res =
      (if sel = cs "soft" then (v, (st res).2) else ((st res).1, v)) ∧
    ∀ r, r ≠ res → (conf_parse_rlimit line st).1 r = st r := by
  refine ⟨?_, ?_, ?_⟩
  · simp only [conf_parse_rlimit, hsp, if_pos hsel, hlk, hv]
  · simp only [conf_parse_rlimit, hsp, if_pos hsel, hlk, hv]
    simp
  · intro r hr
    simp only [conf_parse_rlimit, hsp, if_pos hsel, hlk, hv]
    simp [hr]

theorem matchCmd_append_self (c rest : List Char) : matchCmd (c ++ rest) c = some rest := by
  unfold matchCmd
  rw [List.take_left, List.drop_left]
  simp

theorem matchCmd_append_none_of_le (p c rest : List Char)
    (hlen : c.length ≤ p.length) (h : matchCmd p c = none) :
    matchCmd (p ++ rest) c = none := by
  unfold matchCmd at h ⊢
  rw [List.take_append_of_le_length hlen]
  by_cases hcond : (p.take c.length).map tolower = c.map tolower
  · rw [if_pos hcond] at h; cases h
  · rw [if_neg hcond]

theorem matchCmd_append_none_of_ge (p c rest : List Char)
    (hlen : p.length ≤ c.length)
    (h : p.map tolower ≠ (c.take p.length).map tolower) :
    matchCmd (p ++ rest) c = none := by
  unfold matchCmd
  rw [if_neg]
  intro hc
  apply h
  have h2 := congrArg (List.take p.length) hc
  rw [← List.map_take, ← List.map_take, List.take_take, min_eq_left hlen, List.take_left] at h2
  exact h2

theorem strtonum_bounds {s : List Char} {lo hi v : Int} (h : strtonum s lo hi = some v) :
    lo ≤ v ∧ v ≤ hi := by
  unfold strtonum at h
  rcases hp : parseIntStr s with _ | w <;> rw [hp] at h
  · cases h
  · have h2 : (if w < lo ∨ hi < w then (none : Option Int) else some w) = some v := h
    by_cases hc : w < lo ∨ hi < w
    · rw [if_pos hc] at h2; cases h2
    · rw [if_neg hc] at h2
      cases h2
      push_neg at hc
      exact hc

/-- Claim C4, amended: an `include <path>` line parses the named file
(emits the recursive-parse request interpreted by `parse_conf`) exactly when
the stripped, buffer-truncated path exists according to the `fexist` check;
when it does not exist an error is logged and the directive has no other
effect.  Whether the path is absolute is never checked — the error message
merely mentions absolute paths. -/
theorem c4_include_exists (fs : FS) (sys : Sys) (p : List Char) :
    parse_static fs sys ((cs "include ") ++ p) =
      (sys,
        if fs.fexist (strlcpyTrunc CMD_SIZE (strip_line p)) then
          [Effect.parseConf (strlcpyTrunc CMD_SIZE (strip_line p))]
        else [Effect.logErr]) := by
  have h1 : matchCmd ((cs "include ") ++ p) (cs "host ") = none :=
    matchCmd_append_none_of_le _ _ _ (by decide) (by decide)
  have h2 : matchCmd ((cs "include ") ++ p) (cs "mknod ") = none :=
    matchCmd_append_none_of_le _ _ _ (by decide) (by decide)
  have h3 : matchCmd ((cs "include ") ++ p) (cs "network ") = none :=
    matchCmd_append_none_of_le _ _ _ (by decide) (by decide)
  have h4 : matchCmd ((cs "include ") ++ p) (cs "runparts ") = none :=
    matchCmd_append_none_of_ge _ _ _ (by decide) (by decide)
  have h5 := matchCmd_append_self (cs "include ") p
  simp only [parse_static, h1, h2, h3, h4, h5]
  by_cases hfx : fs.fexist (strlcpyTrunc CMD_SIZE (strip_line p)) = true
  · rw [if_pos hfx, if_pos hfx]
  · rw [if_neg hfx, if_neg hfx]

/-- Claim C4, counterexample: on a filesystem where the relative path
`x.conf` exists, `include x.conf` is parsed recursively even though the
path is not absolute — the code checks only existence (conf.c:261), the
claim's absoluteness requirement is not enforced. -/
theorem c4_counterexample :
    (parse_static fsRel sysInit (cs "include x.conf")).2 = [Effect.parseConf (cs "x.conf")] ∧
    isAbsolutePath (cs "x.conf") = false := by decide

/-- Claim C7: with inetd support excluded from the build, an `inetd <spec>`
line logs an error and issues no registration call (the effect list is
exactly one error log, no `register` event); and a `module <spec>` line
while the current runlevel is not the bootstrap runlevel 0 is a silent
no-op: no command run, nothing logged, no state change. -/
theorem c7_inetd_module :
    (∀ (rest : List Char) (sys : Sys) (mt : Option Nat),
       parse_dynamic false sys ((cs "inetd ") ++ rest) mt = (sys, [Effect.logErr])) ∧
    (∀ (inetdEnabled : Bool) (rest : List Char) (sys : Sys) (mt : Option Nat),
       sys.runlevel ≠ 0 →
       parse_dynamic inetdEnabled sys ((cs "module ") ++ rest) mt = (sys, [])) := by
  constructor
  · intro rest sys mt
    have h1 : matchCmd ((cs "inetd ") ++ rest) (cs "#") = none :=
      matchCmd_append_none_of_le _ _ _ (by decide) (by decide)
    have h2 : matchCmd ((cs "inetd ") ++ rest) (cs "module ") = none :=
      matchCmd_append_none_of_ge _ _ _ (by decide) (by decide)
    have h3 : matchCmd ((cs "inetd ") ++ rest) (cs "service ") = none :=
      matchCmd_append_none_of_ge _ _ _ (by decide) (by decide)
    have h4 : matchCmd ((cs "inetd ") ++ rest) (cs "task ") = none :=
      matchCmd_append_none_of_le _ _ _ (by decide) (by decide)
    have h5 : matchCmd ((cs "inetd ") ++ rest) (cs "run ") = none :=
      matchCmd_append_none_of_le _ _ _ (by decide) (by decide)
    have h6 := matchCmd_append_self (cs "inetd ") rest
    simp only [parse_dynamic, h1, h2, h3, h4, h5, h6, Bool.false_eq_true, if_false]
  · intro inetdEnabled rest sys mt hrl
    have h1 : matchCmd ((cs "module ") ++ rest) (cs "#") = none :=
      matchCmd_append_none_of_le _ _ _ (by decide) (by decide)
    have h2 := matchCmd_append_self (cs "module ") rest
    simp only [parse_dynamic, h1, h2, ne_eq, hrl, not_false_eq_true, if_true]

/-- Claim C7, witness: concrete lines `inetd x` and `module x` (the latter
at current runlevel 2) exercise both halves of the claim. -/
theorem c7_witness :
    sysBoot.runlevel ≠ 0 ∧
    parse_dynamic true sysBoot ((cs "module ") ++ (cs "x")) none = (sysBoot, []) ∧
    parse_dynamic false sysInit ((cs "inetd ") ++ (cs "x")) none = (sysInit, [Effect.logErr]) :=
  ⟨by decide, c7_inetd_module.2 true (cs "x") sysBoot none (by decide),
   c7_inetd_module.1 (cs "x") sysInit none⟩

/-- Claim C8: a `runlevel <token>` line sets the process-wide default
runlevel `cfglevel` to the parsed integer when it lies in 1..9 and is not 6,
and to the fixed default 2 otherwise (parse failure, out of range — which
`strtonum(token, 1, 9, ...)` reports as a parse failure — or the reserved
value 6); the resulting value is always in 1..9 and never 6. -/
theorem c8_runlevel (fs : FS) (sys : Sys) (token : List Char) :
    (parse_static fs sys ((cs "runlevel ") ++ token)).1.cfglevel =
      (match strtonum (strip_line token) 1 9 with
       | some v => if v = 6 then 2 else v
       | none => 2) ∧
    1 ≤ (parse_static fs sys ((cs "runlevel ") ++ token)).1.cfglevel ∧
    (parse_static fs sys ((cs "runlevel ") ++ token)).1.cfglevel ≤ 9 ∧
    (parse_static fs sys ((cs "runlevel ") ++ token)).1.cfglevel ≠ 6 := by
  have h1 : matchCmd ((cs "runlevel ") ++ token) (cs "host ") = none :=
    matchCmd_append_none_of_le _ _ _ (by decide) (by decide)
  have h2 : matchCmd ((cs "runlevel ") ++ token) (cs "mknod ") = none :=
    matchCmd_append_none_of_le _ _ _ (by decide) (by decide)
  have h3 : matchCmd ((cs "runlevel ") ++ token) (cs "network ") = none :=
    matchCmd_append_none_of_le _ _ _ (by decide) (by decide)
  have h4 : matchCmd ((cs "runlevel ") ++ token) (cs "runparts ") = none :=
    matchCmd_append_none_of_le _ _ _ (by decide) (by decide)
  have h5 : matchCmd ((cs "runlevel ") ++ token) (cs "include ") = none :=
    matchCmd_append_none_of_le _ _ _ (by decide) (by decide)
  have h6 : matchCmd ((cs "runlevel ") ++ token) (cs "shutdown ") = none :=
    matchCmd_append_none_of_le _ _ _ (by decide) (by decide)
  have h7 := matchCmd_append_self (cs "runlevel ") token
  simp only [parse_static, h1, h2, h3, h4, h5, h6, h7]
  rcases hv : strtonum (strip_line token) 1 9 with _ | v
  · simp [RUNLEVEL]
  · have hb := strtonum_bounds hv
    by_cases h6v : v = 6
    · simp [h6v]
    · simp [h6v]
      split <;> omega

/-- A sample kernel limit state for the C5 witness. -/
def rlimSample : Resource → Nat × Nat := fun _ => (7, 9)

/-- Claim C5, witness: the spec's round trip.  On a state where every
resource is (7, 9), `soft nofile 1024` tokenizes as expected, names
`nofile`, parses to 1024, applies without warning, and yields soft = 1024
for `nofile` with its hard half still 9, every other resource untouched. -/
theorem c5_witness :
    strtokSplit (cs "soft nofile 1024") = [cs "soft", cs "nofile", cs "1024"] ∧
    rlimitLookup (cs "nofile") = some Resource.nofile ∧
    rlimitValue (cs "1024") = some 1024 ∧
    (conf_parse_rlimit (cs "soft nofile 1024") rlimSample).2 = [] ∧
    (conf_parse_rlimit (cs "soft nofile 1024") rlimSample).1 Resource.nofile = (1024, 9) ∧
    ∀ r, r ≠ Resource.nofile →
      (conf_parse_rlimit (cs "soft nofile 1024") rlimSample).1 r = rlimSample r := by
  have h := c5_rlimit_frame (cs "soft nofile 1024") rlimSample
    (cs "soft") (cs "nofile") (cs "1024") [] Resource.nofile 1024
    (by decide) (Or.inl rfl) (by decide) (by decide)
  exact ⟨by decide, by decide, by decide, h.1, by simpa using h.2.1, h.2.2⟩

theorem strLe_total : ∀ a b : List Char, strLe a b = true ∨ strLe b a = true := by
  intro a
  induction a with
  | nil => intro b; left; cases b <;> rfl
  | cons x xs ih =>
    intro b
    cases b with
    | nil => right; rfl
    | cons y ys =>
      rcases Nat.lt_trichotomy x.toNat y.toNat with h | h | h
      · left; simp [strLe, h]
      · rcases ih ys with h2 | h2
        · left; simp [strLe, h, h2]
        · right; simp [strLe, h, h2]
      · right; simp [strLe, h]

theorem strLe_trans : ∀ a b c : List Char,
    strLe a b = true → strLe b c = true → strLe a c = true := by
  intro a
  induction a with
  | nil => intro b c _ _; cases c <;> rfl
  | cons x xs ih =>
    intro b c hab hbc
    cases b with
    | nil => cases hab
    | cons y ys =>
      cases c with
      | nil => cases hbc
      | cons z zs =>
        simp only [strLe] at hab hbc ⊢
        rcases Nat.lt_trichotomy x.toNat y.toNat with h1 | h1 | h1 <;>
          rcases Nat.lt_trichotomy y.toNat z.toNat with h2 | h2 | h2 <;>
            simp_all <;> first | omega | (exact ih ys zs hab hbc)

theorem rlimit_effects_cases (line : List Char) (st : Resource → Nat × Nat) :
    (conf_parse_rlimit line st).2 = [] ∨ (conf_parse_rlimit line st).2 = [Effect.logWarn] := by
  unfold conf_parse_rlimit
  repeat' split
  all_goals simp

theorem rlimit_effects_mem (line : List Char) (st : Resource → Nat × Nat) :
    ∀ e ∈ (conf_parse_rlimit line st).2, isDynEffect e = true := by
  intro e he
  rcases rlimit_effects_cases line st with h | h <;> rw [h] at he <;> simp_all [isDynEffect]

theorem isDynEffect_isMid (e : Effect) (h : isDynEffect e = true) : isMidEffect e = true := by
  cases e <;> simp_all [isDynEffect, isMidEffect]

theorem parse_dynamic_effects (inetdEnabled : Bool) (sys : Sys) (line : List Char)
    (mt : Option Nat) :
    ∀ e ∈ (parse_dynamic inetdEnabled sys line mt).2, isDynEffect e = true := by
  intro e he
  unfold parse_dynamic at he
  repeat' split at he
  all_goals first
    | exact rlimit_effects_mem _ _ _ he
    | simp_all [isDynEffect]

theorem parseDynLines_effects (inetdEnabled : Bool) (mt : Nat) :
    ∀ (lines : List (List Char)) (sys : Sys) e,
      e ∈ (parseDynLines inetdEnabled mt sys lines).2 → isDynEffect e = true := by
  intro lines
  induction lines with
  | nil => intro sys e he; simp [parseDynLines] at he
  | cons l rest ih =>
    intro sys e he
    simp only [parseDynLines, List.mem_append] at he
    rcases he with h | h
    · exact parse_dynamic_effects _ _ _ _ _ h
    · exact ih _ _ h

theorem parse_conf_dynamic_effects (i : Bool) (fs : FS) (sys : Sys) (file : List Char)
    (mt : Nat) :
    ∀ e ∈ (parse_conf_dynamic i fs sys file mt).2.2, isDynEffect e = true := by
  intro e he
  unfold parse_conf_dynamic at he
  rcases hc : fs.contents file with _ | lines <;> rw [hc] at he
  · simp at he; simp [he, isDynEffect]
  · exact parseDynLines_effects _ _ _ _ _ he

theorem reloadLoop_effects (i : Bool) (fs : FS) :
    ∀ (es : List DirEntry) (sys : Sys) e,
      e ∈ (reloadLoop i fs sys es).2 → isMidEffect e = true := by
  intro es
  induction es with
  | nil => intro sys e he; simp [reloadLoop] at he
  | cons d rest ih =>
    intro sys e he
    simp only [reloadLoop] at he
    split at he
    · exact ih _ _ he
    · split at he
      · exact ih _ _ he
      · split at he
        · exact ih _ _ he
        · split at he
          · exact ih _ _ he
          · simp only [List.cons_append, List.mem_cons, List.mem_append] at he
            rcases he with rfl | h | h
            · rfl
            · exact isDynEffect_isMid _ (parse_conf_dynamic_effects _ _ _ _ _ _ h)
            · exact ih _ _ h

/-- Claim C2: every run of the incremental reconciliation first marks the
live services and ttys (the first two trace events, before any directory
listing or parsing), and the sweep is the final trace event, after every
surviving file's parse; nothing between the marks and the sweep is itself a
mark or a sweep, on every path — including a failed directory listing and
per-file open failures (no partially completed pass sweeps early). -/
theorem c2_mark_parse_sweep (i : Bool) (fs : FS) (sys : Sys) :
    ∃ mid, (conf_reload_dynamic i fs sys).2.2 =
        [Effect.svcMark, Effect.ttyMark] ++ mid ++ [Effect.sweep] ∧
      ∀ e ∈ mid, isMidEffect e = true := by
  unfold conf_reload_dynamic
  rcases hls : fs.listing with _ | es <;> simp only [hls]
  · exact ⟨[], rfl, by simp⟩
  · refine ⟨(reloadLoop i fs sys (sortEntries es)).2 ++ [Effect.setHostnameApply], ?_, ?_⟩
    · simp
    · intro e he
      rcases List.mem_append.mp he with h | h
      · exact reloadLoop_effects _ _ _ _ _ h
      · simp at h; subst h; rfl

theorem parsedFiles_append (a b : List Effect) :
    parsedFiles (a ++ b) = parsedFiles a ++ parsedFiles b := by
  simp [parsedFiles, List.filterMap_append]

theorem parsedFiles_cons_parseFile (p : List Char) (l : List Effect) :
    parsedFiles (Effect.parseFile p :: l) = p :: parsedFiles l := rfl

theorem parsedFiles_nil_of_dyn (l : List Effect) (h : ∀ e ∈ l, isDynEffect e = true) :
    parsedFiles l = [] := by
  induction l with
  | nil => rfl
  | cons e rest ih =>
    have he := h e (by simp)
    have hr := ih (fun x hx => h x (by simp [hx]))
    cases e <;> simp_all [parsedFiles, isDynEffect]

theorem reloadLoop_parsedFiles (i : Bool) (fs : FS) :
    ∀ (es : List DirEntry) (sys : Sys),
      parsedFiles (reloadLoop i fs sys es).2 = (es.filter codeAccepts).map entryPath := by
  intro es
  induction es with
  | nil => intro sys; rfl
  | cons d rest ih =>
    intro sys
    simp only [reloadLoop]
    split
    · next h =>
      have hacc : codeAccepts d = false := by simp [codeAccepts, h]
      simp [List.filter_cons, hacc, ih]
    · split
      · next h =>
        have hacc : codeAccepts d = false := by simp [codeAccepts, h]
        simp [List.filter_cons, hacc, ih]
      · split
        · next h =>
          have hacc : codeAccepts d = false := by simp [codeAccepts, h]
          simp [List.filter_cons, hacc, ih]
        · split
          · next h =>
            have hacc : codeAccepts d = false := by
              simp only [codeAccepts, Bool.and_eq_false_iff]
              right
              simpa using h
            simp [List.filter_cons, hacc, ih]
          · next h1 h2 h3 h4 =>
            have hacc : codeAccepts d = true := by
              simp only [codeAccepts, Bool.and_eq_true, beq_iff_eq, Bool.not_eq_true',
                beq_eq_false_iff_ne, ne_eq]
              refine ⟨⟨⟨h1, h2⟩, h3⟩, by simpa using h4⟩
            have hdyn : parsedFiles (parse_conf_dynamic i fs sys (entryPath d) d.mtime).2.2 = [] :=
              parsedFiles_nil_of_dyn _ (parse_conf_dynamic_effects _ _ _ _ _)
            simp [List.cons_append, parsedFiles_cons_parseFile, parsedFiles_append, hdyn, ih,
              List.filter_cons, hacc]

/-- Claim C3, amended: the drop-in files parsed by a reconciliation pass are
exactly the directory entries that survive the code's skip chain — `lstat`
succeeds, the entry is not a directory, a symlink is not dangling (its
target exists, of any file type), and the path ends in `.conf` — taken in
lexicographic filename order (the scan is the lexicographically sorted
permutation of the directory listing).  Unlike the claim's wording, entries
that are neither regular files nor symlinks to regular files (FIFOs,
devices, symlinks to directories) are not excluded. -/
theorem c3_dropin_selection (i : Bool) (fx : List Char → Bool)
    (ct : List Char → Option (List (List Char))) (es : List DirEntry) (sys : Sys) :
    parsedFiles (conf_reload_dynamic i ⟨fx, ct, some es⟩ sys).2.2 =
      ((sortEntries es).filter codeAccepts).map entryPath ∧
    List.Sorted (fun a b => strLe a.name b.name = true) (sortEntries es) ∧
    (sortEntries es).Perm es := by
  refine ⟨?_, ?_, ?_⟩
  · simp only [conf_reload_dynamic]
    rw [parsedFiles_append, parsedFiles_append, reloadLoop_parsedFiles]
    simp [parsedFiles]
  · unfold sortEntries
    letI : IsTotal DirEntry (fun a b => strLe a.name b.name = true) :=
      ⟨fun a b => strLe_total _ _⟩
    letI : IsTrans DirEntry (fun a b => strLe a.name b.name = true) :=
      ⟨fun a b c => strLe_trans _ _ _⟩
    exact List.sorted_insertionSort _ _
  · unfold sortEntries
    exact List.perm_insertionSort _ _

/-- Claim C3, counterexample: a drop-in directory holding a single FIFO
named `a.conf` — not a regular file and not a symlink — is parsed by the
code, while the claim's filter (regular files or symlinks resolving to
regular files) rejects it. -/
theorem c3_counterexample :
    parsedFiles (conf_reload_dynamic true fsFifo sysInit).2.2 = [cs "/etc/finit.d/a.conf"] ∧
    ([fifoEntry].filter specAccepts).map entryPath = [] ∧
    specAccepts fifoEntry = false := by decide

/-- Claim C10: when the primary configuration file cannot be opened,
`conf_parse_config` returns the failure result 1 and the incremental
reconciliation never runs: the trace is empty — no registry marks, no
directory scan or drop-in parse, no registration, and no hostname
application (the short-circuit of `||` at conf.c:534). -/
theorem c10_primary_failure (i : Bool) (fx : List Char → Bool)
    (ct : List Char → Option (List (List Char))) (ls : Option (List DirEntry)) (fuel : Nat) :
    (conf_parse_config i ⟨fx, fun f => if f = FINIT_CONF then none else ct f, ls⟩ fuel).1 = 1 ∧
    (conf_parse_config i ⟨fx, fun f => if f = FINIT_CONF then none else ct f, ls⟩ fuel).2.2
      = [] := by
  cases fuel <;> constructor <;> simp [conf_parse_config, parse_conf]

end Finit
